import Mathlib

/-!
# Verification of the aox message-injector specification

Shallow embedding of the relevant parts of `src/message/injector.cpp`,
`src/aox/undelete.cpp` and `src/db/database.cpp`, together with theorems
settling the frozen claims about the specification.

Conventions: machine integers that are non-negative in the database
(`uidnext`, `nextmodseq`, ids) are modelled as `Nat`; C++ strings are
modelled as Lean `String` or `List Char`; fallible database work is
modelled with `Except String`/`Option`.
-/

namespace Aox

/-! ## Small string helpers (aox `String` operations used by the code) -/

/-- ASCII lowercasing of one character, as aox `String::lower()` does per byte. -/
def lowerC (c : Char) : Char :=
  if 'A' ≤ c ∧ c ≤ 'Z' then Char.ofNat (c.toNat + 32) else c

/-- ASCII lowercasing of a byte string (aox `String::lower()`). -/
def lowerL (s : List Char) : List Char :=
  s.map lowerC

/-- Boolean test: does `p` begin the list `s`? (aox `String::startsWith`). -/
def beginsWith : List Char → List Char → Bool
  | [], _ => true
  | _ :: _, [] => false
  | a :: as, b :: bs => a = b && beginsWith as bs

/-- Boolean substring test on character lists (aox `String::contains`). -/
def hasSubL (pat : List Char) : List Char → Bool
  | [] => beginsWith pat []
  | c :: cs => beginsWith pat (c :: cs) || hasSubL pat cs

/-- Substring test on `String`s, mirroring aox `String::contains`. -/
def strContainsSub (hay pat : String) : Bool :=
  hasSubL pat.data hay.data

/-! ## C1 / C8: the UID/modseq allocator (`UidFetcher::process`, `Injector::setup`)

A `MailboxRow` is the row of `mailboxes` read by the prepared statement
`lockUidnext` (`select uidnext,nextmodseq,first_recent from mailboxes
where id=$1 for update`). -/

structure MailboxRow where
  uidnext : Nat
  nextmodseq : Nat
  first_recent : Nat
deriving DecidableEq

/-- The prepared statement `incrUidnext`:
`update mailboxes set uidnext=uidnext+1,nextmodseq=nextmodseq+1 where id=$1`. -/
def incrUidnext (r : MailboxRow) : MailboxRow :=
  { r with uidnext := r.uidnext + 1, nextmodseq := r.nextmodseq + 1 }

/-- The prepared statement `incrUidnextWithRecent`, which additionally sets
`first_recent=first_recent+1`. -/
def incrUidnextWithRecent (r : MailboxRow) : MailboxRow :=
  { uidnext := r.uidnext + 1, nextmodseq := r.nextmodseq + 1,
    first_recent := r.first_recent + 1 }

/-- The `(uid, ms, recentIn?)` triple `UidFetcher::process` records in the
`Uid` struct for one target mailbox. -/
structure UidAssign where
  uid : Nat
  ms : Nat
  withRecent : Bool
deriving DecidableEq

/-- `UidFetcher::process`, value part: record the fetched `uidnext` as the
assigned UID and the fetched `nextmodseq` as the assigned modseq; the
with-recent variant is chosen when `uidnext == first_recent` and the mailbox
has a live session. -/
def processUid (r : MailboxRow) (hasSession : Bool) : UidAssign :=
  { uid := r.uidnext, ms := r.nextmodseq,
    withRecent := (r.uidnext == r.first_recent) && hasSession }

/-- `UidFetcher::process`, update part: the increment enqueued on the
transaction (`incrUidnextWithRecent` when a session was picked as `recentIn`,
otherwise `incrUidnext`). -/
def uidIncrement (r : MailboxRow) (hasSession : Bool) : MailboxRow :=
  if (r.uidnext == r.first_recent) && hasSession then
    incrUidnextWithRecent r
  else
    incrUidnext r

/-- Log severities used by `UidFetcher::process` for the UID-exhaustion note. -/
inductive WarnSeverity where
  | errorLevel
  | disasterLevel
deriving DecidableEq

/-- The warning emitted by `UidFetcher::process`: a log entry when the fetched
`uidnext` exceeds `0x7fff0000`, at `Disaster` severity when it exceeds
`0x7ffffff0`, at `Error` severity otherwise; no log entry below the threshold. -/
def uidWarnLevel (uidnext : Nat) : Option WarnSeverity :=
  if uidnext > 0x7fff0000 then
    some (if uidnext > 0x7ffffff0 then WarnSeverity.disasterLevel
          else WarnSeverity.errorLevel)
  else
    none

/-- Modelled from the spec: the `uidnext` column of `mailboxes` is a
PostgreSQL `integer` (the schema itself is not under `src/`), so every value
the allocator can fetch is below `2^31`; this is the sense in which UIDs
`≥ 2^31` are disallowed. -/
def pgIntBound : Nat := 2 ^ 31

/-! ## C6: bodypart store decision (`Injector::setupBodyparts`) -/

/-- A MIME content type as exposed by `ContentType` (`type()`/`subtype()`). -/
structure CType where
  type : String
  subtype : String
deriving DecidableEq

/-- The store decision of `Injector::setupBodyparts` for one bodypart,
returned as `(storeText, storeData)`. A bodypart with no content type takes
the `else` branch that only sets `storeText`. -/
def storeDecision (ct : Option CType) : Bool × Bool :=
  match ct with
  | some c =>
    if c.type == "text" then
      (true, c.subtype == "html")
    else
      let storeData := true
      let storeData :=
        if c.type == "multipart" && !(c.subtype == "signed") then false
        else storeData
      let storeData :=
        if c.type == "message" && c.subtype == "rfc822" then false
        else storeData
      (false, storeData)
  | none => (true, false)

/-! ## C7: one-shot owner notification (`Injector::finish`) -/

/-- The owner-notification state of an `Injector`: `d->owner` (null once
notified) and a count of completed notifications, so that "exactly once" is
expressible. -/
structure OwnerState where
  owner : Option Nat
  notices : Nat
deriving DecidableEq

/-- `Injector::finish`: if `d->owner` is null, return without doing anything;
otherwise notify the owner (count one notification) and null `d->owner`. -/
def finish (s : OwnerState) : OwnerState :=
  match s.owner with
  | none => s
  | some _ => { owner := none, notices := s.notices + 1 }

/-- `n` successive completion/query-failure events, each of which reaches
`Injector::finish` on the same injection. -/
def finishIter : Nat → OwnerState → OwnerState
  | 0, s => s
  | n + 1, s => finishIter n (finish s)

/-! ## C2: side effects only on successful commit (`Injector::execute`)

`Injector::execute` is a linear chain of phase gates: each gate waits for a
subordinate (flag creator, bodypart fetcher, ...) and on its failure sets
`d->failed`, rolls the transaction back and jumps to `AwaitingCompletion`.
The `AwaitingCompletion` block commits if nothing failed, folds the
transaction's own failure into `d->failed`, and runs `announce()` — the only
function that touches sessions, broadcasts to peers or bumps the in-process
`Mailbox` counters — exactly when `d->failed` is still false. -/

structure InjRun where
  phase : Nat
  dFailed : Bool
  rolledBack : Bool
  commitCalled : Bool
  announced : Bool
deriving DecidableEq

/-- The injector at `Inactive`, with a fresh transaction. -/
def injStart : InjRun := ⟨0, false, false, false, false⟩

/-- One phase gate of `Injector::execute`: if the subordinate succeeded,
advance to the next phase; on failure set `d->failed`, roll back and move to
`AwaitingCompletion` (after which later gates do nothing). -/
def phaseGate (ok : Bool) (s : InjRun) : InjRun :=
  if s.rolledBack then s
  else if ok then { s with phase := s.phase + 1 }
  else { s with dFailed := true, rolledBack := true }

/-- The phase gates of one injection, driven by the outcomes of the
subordinate steps. -/
def runPhases : List Bool → InjRun → InjRun
  | [], s => s
  | ok :: rest, s => runPhases rest (phaseGate ok s)

/-- The `AwaitingCompletion` block of `Injector::execute`: commit unless the
transaction was already rolled back, fold the transaction's aggregate failure
into `d->failed`, and run the announcer only if nothing failed. -/
def completeInj (txnFailed : Bool) (s : InjRun) : InjRun :=
  let s1 := if s.rolledBack then s else { s with commitCalled := true }
  if s1.dFailed || txnFailed then s1 else { s1 with announced := true }

/-! ## C4: bodypart insert-or-lookup (`BidFetcher::execute`)

One `Bid` carries an allow-failure `INSERT INTO bodyparts` and a
`SELECT id FROM bodyparts WHERE hash=$1`. The database's response to the two
queries of one bodypart is summarised by a `BodyOutcome`. -/

structure BodyOutcome where
  insertErr : Option String
  selectErr : Option String
  selectRow : Option Nat
deriving DecidableEq

/-- State 2 of `BidFetcher::execute`: read the select's row; if the select
failed or returned no row, fail with the select's error, or with
"No matching bodypart found" when there is no row and no error text. -/
def bidSelectResult (o : BodyOutcome) : Except String Nat :=
  match o.selectRow with
  | some i =>
    match o.selectErr with
    | some e => Except.error e
    | none => Except.ok i
  | none =>
    match o.selectErr with
    | some e => Except.error e
    | none => Except.error "No matching bodypart found"

/-- States 0–2 of `BidFetcher::execute` for one bodypart: issue
`savepoint a{n}` and the insert; if the insert failed with an error not
containing `bodyparts_hash_key`, the whole fetch fails with that error;
otherwise (after `rollback to a{n}` on a hash conflict, recorded as the
Boolean) resolve the bid via the select. -/
def bidFetchOne (o : BodyOutcome) : Except String (Nat × Bool) :=
  match o.insertErr with
  | none => (bidSelectResult o).map (fun i => (i, false))
  | some e =>
    if strContainsSub e "bodyparts_hash_key" then
      (bidSelectResult o).map (fun i => (i, true))
    else
      Except.error e

/-- The whole `BidFetcher` loop over every storable bodypart: the first
failure aborts the fetch (and with it the injection). -/
def bidFetchAll : List BodyOutcome → Except String (List (Nat × Bool))
  | [] => Except.ok []
  | o :: os =>
    match bidFetchOne o with
    | Except.error e => Except.error e
    | Except.ok p => (bidFetchAll os).map (fun l => p :: l)

/-! ## C9: pool starvation (`Database::removeHandle`) -/

/-- A query in the pool's submitted queue: its error (set by `setError`) and
whether its owner was notified. -/
structure PoolQuery where
  err : Option String
  notified : Bool
deriving DecidableEq

/-- The observable outcome of `Database::removeHandle`. -/
structure RemoveOutcome where
  handles : List Nat
  failedQueries : List PoolQuery
  queue : List PoolQuery
  disaster : Bool
deriving DecidableEq

/-- `Database::removeHandle`: remove `d` from the handle pool; if handles
remain, nothing else happens. If the last handle is gone, every query in the
submitted queue is failed with "No available database handles." and
notified (and taken off the queue), and a disaster is logged when the server
endpoint is a Unix socket whose address does not start with `File::root()`. -/
def removeHandle (handles : List Nat) (d : Nat) (queue : List PoolQuery)
    (isUnix : Bool) (addr root : List Char) : RemoveOutcome :=
  let hs := handles.erase d
  if hs.isEmpty then
    { handles := hs,
      failedQueries := queue.map (fun q =>
        { q with err := some "No available database handles.",
                 notified := true }),
      queue := [],
      disaster := isUnix && !(beginsWith root addr) }
  else
    { handles := hs, failedQueries := [], queue := queue, disaster := false }

/-! ## C3: the undelete transaction (`Undelete::execute`, state 3)

The queries enqueued after the selector has produced the matching UID set
`s`, with `uidnext`/`nextmodseq` read from the `for update` select:
`create temporary sequence s start uidnext`, the `insert into
mailbox_messages ... select $1,nextval('s'),message,$2 from deleted_messages
where mailbox=$1 and uid=any($3)`, the `delete from deleted_messages where
mailbox=$1 and uid=any($2)`, the `update mailboxes set
uidnext=nextval('s'), nextmodseq=$1 where id=$2`, and `drop sequence s`. -/

inductive SqlVal where
  | num (n : Nat)
  | uidSet (s : List Nat)
deriving DecidableEq

/-- Positional parameter lookup for a query's bound values. -/
def plookup (i : Nat) : List (Nat × SqlVal) → Option SqlVal
  | [] => none
  | p :: ps => if p.1 = i then some p.2 else plookup i ps

/-- A row of `deleted_messages` (the columns undelete moves back). -/
structure DeletedRow where
  mailbox : Nat
  uid : Nat
  message : Nat
deriving DecidableEq

/-- A row of `mailbox_messages` (the columns undelete inserts). -/
structure MailboxMsgRow where
  mailbox : Nat
  uid : Nat
  message : Nat
  modseq : Nat
deriving DecidableEq

/-- The database state visible to undelete: the target mailbox's counters
and the two message tables restricted to that mailbox. -/
structure UndeleteDb where
  uidnext : Nat
  nextmodseq : Nat
  deleted : List DeletedRow
  mm : List MailboxMsgRow
deriving DecidableEq

/-- The parameters the code binds on the DELETE from `deleted_messages`:
`q->bind( 1, d->m->id() ); q->bind( 5, s );` — index 5, although the SQL
references `$2`. -/
def undeleteDeleteParams (mid : Nat) (s : List Nat) : List (Nat × SqlVal) :=
  [(1, SqlVal.num mid), (5, SqlVal.uidSet s)]

/-- `delete from deleted_messages where mailbox=$1 and uid=any($2)`:
executing it needs values bound for `$1` and `$2`; a referenced parameter
with no bound value fails the query (and with it the transaction). -/
def execDeleteDeleted (db : UndeleteDb) (ps : List (Nat × SqlVal)) :
    Except String UndeleteDb :=
  match plookup 1 ps, plookup 2 ps with
  | some (SqlVal.num mb), some (SqlVal.uidSet s) =>
    let keep : DeletedRow → Bool := fun r =>
      !(r.mailbox == mb && s.contains r.uid)
    Except.ok { db with deleted := db.deleted.filter keep }
  | _, _ => Except.error "parameter $2 not bound"

/-- The body of the undelete transaction for mailbox `mid` and matching UID
set `s`: the temporary sequence starts at the pre-undelete `uidnext`, the
insert gives the matching `deleted_messages` rows consecutive fresh UIDs and
the pre-undelete `nextmodseq` as `modseq`, the delete runs with the
parameters the code actually binds, and the mailbox row is updated to
`uidnext = nextval('s')` (one past the last assigned UID) and
`nextmodseq = modseq + 1`. -/
def undeleteTxn (db : UndeleteDb) (mid : Nat) (s : List Nat) :
    Except String UndeleteDb :=
  let uidnext := db.uidnext
  let modseq := db.nextmodseq
  let matching := db.deleted.filter (fun r =>
    r.mailbox == mid && s.contains r.uid)
  let inserted := matching.enum.map (fun p =>
    ({ mailbox := mid, uid := uidnext + p.1, message := p.2.message,
       modseq := modseq } : MailboxMsgRow))
  let db1 := { db with mm := db.mm ++ inserted }
  match execDeleteDeleted db1 (undeleteDeleteParams mid s) with
  | Except.error e => Except.error e
  | Except.ok db2 =>
    Except.ok { db2 with uidnext := uidnext + matching.length,
                         nextmodseq := modseq + 1 }

/-- The undelete transaction as a whole: any query failure fails the
transaction, which is rolled back leaving the database unchanged (the
command prints "Undelete failed."); the Boolean reports success. -/
def undeleteRun (db : UndeleteDb) (mid : Nat) (s : List Nat) :
    UndeleteDb × Bool :=
  match undeleteTxn db mid s with
  | Except.error _ => (db, false)
  | Except.ok db2 => (db2, true)

/-! ## C5: address resolution (`Injector::resolveAddressLinks`)

Heap `Address` instances are modelled as indices into a value store
`store : Nat → Addr`; sharing an instance is sharing an index (and hence,
after the `AddressCreator` runs, sharing `id()`). An `AddressLink` is
reduced to its address index; its other fields (field type, part, position,
number) play no part in this function. -/

structure Addr where
  uname : List Char
  localpart : List Char
  domain : List Char
deriving DecidableEq

/-- `addressKey`: `uname ++ NUL ++ localpart ++ NUL ++ lower(domain)`. -/
def addressKey (a : Addr) : List Char :=
  a.uname ++ Char.ofNat 0 :: (a.localpart ++ Char.ofNat 0 :: lowerL a.domain)

/-- The key of the `naked` dict: `localpart() + "@" + domain()`. -/
def nakedKey (a : Addr) : List Char :=
  a.localpart ++ '@' :: a.domain

/-- First-match lookup in a `Dict` modelled as an association list whose
inserts cons at the front. -/
def alookup (k : List Char) : List (List Char × Nat) → Option Nat
  | [] => none
  | p :: ps => if p.1 = k then some p.2 else alookup k ps

/-- The first loop of `Injector::resolveAddressLinks`, over
`d->addressLinks`: a link whose address's `addressKey` is already in
`unique` gets its address pointer replaced by the one stored there;
otherwise the address is recorded in `unique` and `naked` and appended to
the list handed to the `AddressCreator`. Arguments and results:
(links, unique, naked, addresses). -/
def resolveLinks (store : Nat → Addr) :
    List Nat → List (List Char × Nat) → List (List Char × Nat) → List Nat →
    List Nat × List (List Char × Nat) × List (List Char × Nat) × List Nat
  | [], u, n, as => ([], u, n, as)
  | l :: ls, u, n, as =>
    match alookup (addressKey (store l)) u with
    | some i =>
      let r := resolveLinks store ls u n as
      (i :: r.1, r.2)
    | none =>
      let r := resolveLinks store ls ((addressKey (store l), l) :: u)
        ((nakedKey (store l), l) :: n) (as ++ [l])
      (l :: r.1, r.2)

/-- The running state of the loop over `d->remoteRecipients`: the evolving
`naked` dict, the instances prepended at the front of the (intrusive)
recipient list (most recent first), the visited recipients left in place,
and the `addresses` list handed to the `AddressCreator`. -/
structure RcptState where
  naked : List (List Char × Nat)
  front : List Nat
  kept : List Nat
  addrs : List Nat
deriving DecidableEq

/-- One visit of the remote-recipients loop: a recipient whose naked key is
bound to a different Address instance is removed from the list and that
instance is prepended (`remove( a ); prepend( same )`); a recipient with a
fresh key stays in place and is recorded in `naked` and `addresses`. -/
def rcptVisit (store : Nat → Addr) (a : Nat) (s : RcptState) : RcptState :=
  match alookup (nakedKey (store a)) s.naked with
  | some same =>
    if a = same then { s with kept := s.kept ++ [a] }
    else { s with front := same :: s.front }
  | none =>
    { s with naked := (nakedKey (store a), a) :: s.naked,
             kept := s.kept ++ [a], addrs := s.addrs ++ [a] }

/-- The loop over `d->remoteRecipients` (the iterator is advanced before
the list is mutated, so prepended elements are never revisited). -/
def rcptLoop (store : Nat → Addr) : List Nat → RcptState → RcptState
  | [], s => s
  | a :: as, s => rcptLoop store as (rcptVisit store a s)

/-- The remote-recipients list after the loop: the prepended instances
followed by the survivors in their original order. -/
def finalRcpts (s : RcptState) : List Nat :=
  s.front ++ s.kept

/-- `Injector::resolveAddressLinks` for the header links and the remote
recipients (the claims do not involve the sender handling): the rewritten
link addresses, the remote-recipients list after the loop, and the address
list passed to the `AddressCreator`. -/
def resolveAddressLinks (store : Nat → Addr) (links rcpts : List Nat) :
    List Nat × List Nat × List Nat :=
  let r := resolveLinks store links [] [] []
  let s := rcptLoop store rcpts ⟨r.2.2.1, [], [], r.2.2.2⟩
  (r.1, finalRcpts s, s.addrs)

/-- The `naked` dict as it stands when the remote-recipients loop starts:
one entry per distinct header address. -/
def linksNaked (store : Nat → Addr) (links : List Nat) :
    List (List Char × Nat) :=
  (resolveLinks store links [] [] []).2.2.1

/-- A concrete three-address store: instance 0 is a header (From) address
`x@y` with display name "A"; instances 1 and 2 are remote recipients `p@q`
and `x@y` without display names. -/
def cexStore : Nat → Addr := fun i =>
  if i = 0 then ⟨['A'], ['x'], ['y']⟩
  else if i = 1 then ⟨[], ['p'], ['q']⟩
  else ⟨[], ['x'], ['y']⟩

/-! ## C10: `Injector::internalDate` -/

/-- The index the loop `int i = 0; while ( v.find( ';', i+1 ) > 0 ) i =
v.find( ';', i+1 );` ends at: the last index of `;` in `v` among indices
`≥ 1`, or `0` when there is none (note: also `0` when the only `;` is at
index 0, or when there is no `;` at all). -/
def lastSemiIdx (v : List Char) : Nat :=
  v.enum.foldl (fun acc p =>
    if p.2 == ';' && decide (1 ≤ p.1) then p.1 else acc) 0

/-- One Received field's date attempt: `id.setRfc822( v.mid( i+1 ) )` with
`i = lastSemiIdx v`; `parse` stands for the external `Date` class
(`some t` when the resulting date is valid, with `t` its Unix time). -/
def receivedAttempt (parse : List Char → Option Nat) (v : List Char) :
    Option Nat :=
  parse (v.drop (lastSemiIdx v + 1))

/-- The scan over the header's Received fields, in header order, stopping at
the first attempt that yields a valid date. -/
def firstValidReceived (parse : List Char → Option Nat) :
    List (List Char) → Option Nat
  | [] => none
  | v :: vs =>
    match receivedAttempt parse v with
    | some t => some t
    | none => firstValidReceived parse vs

/-- What `Injector::internalDate` reads from a `Message`: the stored
internal date (`0` = unset), the values of its Received header fields in
header order, and the Unix time of its Date header when the header has
one. -/
structure MsgDate where
  internal : Nat
  receivedVals : List (List Char)
  dateHdr : Option Nat
deriving DecidableEq

/-- `Injector::internalDate`: null message gives 0; a message with a
nonzero stored internal date returns it unchanged; otherwise the first
valid Received date, else the Date header's Unix time, else the current
time `now`, is stored on the message via `setInternalDate` and returned. -/
def internalDate (parse : List Char → Option Nat) (now : Nat) :
    Option MsgDate → Nat × Option MsgDate
  | none => (0, none)
  | some m =>
    if m.internal ≠ 0 then (m.internal, some m)
    else
      let t :=
        match firstValidReceived parse m.receivedVals with
        | some t0 => t0
        | none =>
          match m.dateHdr with
          | some t1 => t1
          | none => now
      (t, some { m with internal := t })

end Aox

namespace Aox

/-! ## Theorems for C1, C6, C7, C8 -/

/-- C1: for every injection into a target mailbox, the UID assigned is the
mailbox's `uidnext` as read under the `FOR UPDATE` lock and the modseq is its
`nextmodseq`; the enqueued increment (either variant) yields
`uidnext_after = assigned_uid + 1` and `nextmodseq_after = nextmodseq_before + 1`,
hence `assigned_modseq < nextmodseq_after`, and a subsequent injection is
assigned exactly the next UID (strictly increasing, gap-free). -/
theorem uid_allocation_correct (r : MailboxRow) (hs hs2 : Bool) :
    (processUid r hs).uid = r.uidnext ∧
    (processUid r hs).ms = r.nextmodseq ∧
    (uidIncrement r hs).uidnext = (processUid r hs).uid + 1 ∧
    (uidIncrement r hs).nextmodseq = r.nextmodseq + 1 ∧
    (processUid r hs).ms < (uidIncrement r hs).nextmodseq ∧
    (processUid (uidIncrement r hs) hs2).uid = (processUid r hs).uid + 1 := by
  unfold processUid uidIncrement incrUidnext incrUidnextWithRecent
  by_cases h : ((r.uidnext == r.first_recent) && hs) = true <;>
    simp [h]

/-- C6: the deduper's store decision follows the content-type table:
`text/html` stores text and data, other `text/*` stores text only,
`multipart/signed` stores data only, other `multipart/*` and
`message/rfc822` store nothing, anything else stores data only, and an
absent content type stores text only (treated as `text/plain`). -/
theorem store_decision_table :
    storeDecision (some ⟨"text", "html"⟩) = (true, true) ∧
    (∀ st : String, st ≠ "html" →
      storeDecision (some ⟨"text", st⟩) = (true, false)) ∧
    storeDecision (some ⟨"multipart", "signed"⟩) = (false, true) ∧
    (∀ st : String, st ≠ "signed" →
      storeDecision (some ⟨"multipart", st⟩) = (false, false)) ∧
    storeDecision (some ⟨"message", "rfc822"⟩) = (false, false) ∧
    (∀ t st : String, t ≠ "text" → t ≠ "multipart" →
      ¬(t = "message" ∧ st = "rfc822") →
      storeDecision (some ⟨t, st⟩) = (false, true)) ∧
    storeDecision none = (true, false) := by
  refine ⟨by decide, ?_, by decide, ?_, by decide, ?_, by decide⟩
  · intro st h
    simp [storeDecision, h]
  · intro st h
    simp [storeDecision, h]
  · intro t st ht hm hr
    by_cases hmsg : t = "message"
    · have hst : st ≠ "rfc822" := fun hs => hr ⟨hmsg, hs⟩
      simp [storeDecision, ht, hm, hmsg, hst]
    · simp [storeDecision, ht, hm, hmsg]

/-- Witness for `store_decision_table` at the concrete subtype `plain`. -/
theorem store_decision_table_witness :
    ("plain" : String) ≠ "html" ∧
    storeDecision (some ⟨"text", "plain"⟩) = (true, false) :=
  ⟨by decide, store_decision_table.2.1 "plain" (by decide)⟩

/-- C7: the owner is notified exactly once: over any positive number of
completion or query-failure events reaching `Injector::finish`, exactly one
notification is delivered and the owner pointer ends up null. -/
theorem owner_notified_once (n : Nat) (o : Nat) (hn : 1 ≤ n) :
    (finishIter n { owner := some o, notices := 0 }).notices = 1 ∧
    (finishIter n { owner := some o, notices := 0 }).owner = none := by
  have step : ∀ m s, s.owner = none → finishIter m s = s := by
    intro m
    induction m with
    | zero => intro s _; rfl
    | succ k ih =>
      intro s hso
      have hf : finish s = s := by
        unfold finish
        rw [hso]
      simp only [finishIter, hf]
      exact ih s hso
  obtain ⟨k, rfl⟩ : ∃ k, n = k + 1 := ⟨n - 1, by omega⟩
  have h1 : finish { owner := some o, notices := 0 } =
      ({ owner := none, notices := 1 } : OwnerState) := rfl
  simp only [finishIter, h1]
  rw [step k { owner := none, notices := 1 } rfl]
  exact ⟨rfl, rfl⟩

/-- Witness for `owner_notified_once` with three events after completion. -/
theorem owner_notified_once_witness :
    1 ≤ 3 ∧
    (finishIter 3 { owner := some 7, notices := 0 }).notices = 1 :=
  ⟨by decide, (owner_notified_once 3 7 (by decide)).1⟩

/-- C8: the allocator warns (at `Error` severity) exactly when the fetched
`uidnext` exceeds `0x7fff0000`, escalates to `Disaster` severity when it
exceeds `0x7ffffff0`, and — since the `uidnext` column is a PostgreSQL
`integer`, modelled from the spec as `pgIntBound` — the assigned UID is
always below `2^31`. -/
theorem uid_warning_levels (u : Nat) (r : MailboxRow) (hs : Bool)
    (hcol : r.uidnext < pgIntBound) :
    (0x7fff0000 < u ↔ uidWarnLevel u ≠ none) ∧
    (0x7ffffff0 < u → uidWarnLevel u = some WarnSeverity.disasterLevel) ∧
    (0x7fff0000 < u → u ≤ 0x7ffffff0 →
      uidWarnLevel u = some WarnSeverity.errorLevel) ∧
    (processUid r hs).uid < pgIntBound := by
  refine ⟨?_, ?_, ?_, hcol⟩
  · constructor
    · intro h
      simp [uidWarnLevel, h]
    · intro h
      by_contra hnot
      have hle : ¬ 0x7fff0000 < u := hnot
      exact h (by simp [uidWarnLevel, hle])
  · intro h
    have h0 : 0x7fff0000 < u := by omega
    simp [uidWarnLevel, h, h0]
  · intro h1 h2
    have h3 : ¬ 0x7ffffff0 < u := by omega
    simp [uidWarnLevel, h1, h3]

/-- Witness for `uid_warning_levels` at `uidnext = 0x7ffffff1` on a small
mailbox row. -/
theorem uid_warning_levels_witness :
    (⟨5, 1, 1⟩ : MailboxRow).uidnext < pgIntBound ∧
    uidWarnLevel 0x7ffffff1 = some WarnSeverity.disasterLevel :=
  ⟨by decide,
   (uid_warning_levels 0x7ffffff1 ⟨5, 1, 1⟩ true (by decide)).2.1 (by decide)⟩

/-! ## Theorems for C2, C4, C9 -/

/-- The phase gates keep `d->failed` and "transaction rolled back" in sync
and never touch the announce/commit bookkeeping. -/
theorem runPhases_inv (oks : List Bool) :
    ∀ s : InjRun, s.dFailed = s.rolledBack →
      ((runPhases oks s).dFailed = (runPhases oks s).rolledBack ∧
       (runPhases oks s).announced = s.announced ∧
       (runPhases oks s).commitCalled = s.commitCalled) := by
  induction oks with
  | nil => intro s h; exact ⟨h, rfl, rfl⟩
  | cons ok rest ih =>
    intro s h
    have hg : (phaseGate ok s).dFailed = (phaseGate ok s).rolledBack ∧
        (phaseGate ok s).announced = s.announced ∧
        (phaseGate ok s).commitCalled = s.commitCalled := by
      unfold phaseGate
      split
      · exact ⟨h, rfl, rfl⟩
      · split
        · exact ⟨h, rfl, rfl⟩
        · exact ⟨rfl, rfl, rfl⟩
    have hr := ih (phaseGate ok s) hg.1
    refine ⟨hr.1, ?_, ?_⟩
    · rw [show runPhases (ok :: rest) s = runPhases rest (phaseGate ok s) from rfl,
        hr.2.1, hg.2.1]
    · rw [show runPhases (ok :: rest) s = runPhases rest (phaseGate ok s) from rfl,
        hr.2.2, hg.2.2]

/-- C2: the announcer (the only code that adds UIDs to sessions'
recent/unannounced sets, broadcasts to peer processes, or bumps the
in-process `uidnext`/`nextmodseq`) runs only when no phase failed, the
transaction was never rolled back, and the commit was issued and succeeded;
on any failure it is never run. -/
theorem announce_only_after_commit (oks : List Bool) (txnFailed : Bool)
    (h : (completeInj txnFailed (runPhases oks injStart)).announced = true) :
    txnFailed = false ∧
    (runPhases oks injStart).dFailed = false ∧
    (runPhases oks injStart).rolledBack = false ∧
    (completeInj txnFailed (runPhases oks injStart)).commitCalled = true := by
  have hinv := runPhases_inv oks injStart rfl
  have hann : (runPhases oks injStart).announced = false := hinv.2.1
  by_cases hrb : (runPhases oks injStart).rolledBack = true
  · have hdf : (runPhases oks injStart).dFailed = true := by
      rw [hinv.1]; exact hrb
    have hc : completeInj txnFailed (runPhases oks injStart) =
        runPhases oks injStart := by
      simp [completeInj, hrb, hdf]
    rw [hc, hann] at h
    cases h
  · have hrb' : (runPhases oks injStart).rolledBack = false := by
      revert hrb
      cases (runPhases oks injStart).rolledBack <;> simp
    have hdf : (runPhases oks injStart).dFailed = false := by
      rw [hinv.1]; exact hrb'
    by_cases htf : txnFailed = true
    · have hc : completeInj txnFailed (runPhases oks injStart) =
          { runPhases oks injStart with commitCalled := true } := by
        simp [completeInj, hrb', hdf, htf]
      rw [hc] at h
      simp only [] at h
      rw [show ({ runPhases oks injStart with
            commitCalled := true } : InjRun).announced =
          (runPhases oks injStart).announced from rfl, hann] at h
      cases h
    · have htf' : txnFailed = false := by
        revert htf
        cases txnFailed <;> simp
      refine ⟨htf', hdf, hrb', ?_⟩
      simp [completeInj, hrb', hdf, htf']

/-- Witness for `announce_only_after_commit`: one successful phase and a
clean commit do announce. -/
theorem announce_only_after_commit_witness :
    (completeInj false (runPhases [true] injStart)).announced = true ∧
    (completeInj false (runPhases [true] injStart)).commitCalled = true :=
  ⟨by decide, (announce_only_after_commit [true] false (by decide)).2.2.2⟩

/-- C4: the bodypart deduper recovers exactly from `bodyparts_hash_key`
insert conflicts: such an insert failure is followed by a rollback to the
per-attempt savepoint and the bid is resolved by the hash select; an insert
failure with any other error fails the fetch with that error; a select that
returns no row fails the fetch; and any single failure fails the whole run. -/
theorem bodypart_hash_recovery (o : BodyOutcome) (e : String) (bid : Nat) :
    (o.insertErr = some e → strContainsSub e "bodyparts_hash_key" = true →
      o.selectErr = none → o.selectRow = some bid →
      bidFetchOne o = Except.ok (bid, true)) ∧
    (o.insertErr = some e → strContainsSub e "bodyparts_hash_key" = false →
      bidFetchOne o = Except.error e) ∧
    (o.selectRow = none → ∃ msg, bidFetchOne o = Except.error msg) ∧
    (∀ os1 os2 e2, bidFetchOne o = Except.error e2 →
      ∃ msg, bidFetchAll (os1 ++ o :: os2) = Except.error msg) := by
  refine ⟨?_, ?_, ?_, ?_⟩
  · intro hi hsub hse hsr
    simp [bidFetchOne, bidSelectResult, hi, hsub, hse, hsr, Except.map]
  · intro hi hsub
    simp [bidFetchOne, hi, hsub]
  · intro hsr
    unfold bidFetchOne bidSelectResult
    rw [hsr]
    cases hi : o.insertErr with
    | none =>
      cases hse : o.selectErr with
      | none => exact ⟨"No matching bodypart found", rfl⟩
      | some e1 => exact ⟨e1, rfl⟩
    | some e1 =>
      by_cases hsub : strContainsSub e1 "bodyparts_hash_key" = true
      · cases hse : o.selectErr with
        | none => exact ⟨"No matching bodypart found", by simp [hsub, Except.map]⟩
        | some e2 => exact ⟨e2, by simp [hsub, Except.map]⟩
      · exact ⟨e1, by simp [hsub]⟩
  · intro os1 os2 e2 hfail
    induction os1 with
    | nil => exact ⟨e2, by simp [bidFetchAll, hfail]⟩
    | cons o1 rest ih =>
      obtain ⟨msg, hmsg⟩ := ih
      cases h1 : bidFetchOne o1 with
      | error e1 => exact ⟨e1, by simp [bidFetchAll, h1]⟩
      | ok p => exact ⟨msg, by simp [bidFetchAll, h1, hmsg, Except.map]⟩

/-- Witness for `bodypart_hash_recovery`: a hash-key conflict recovered via
the select, on a concrete outcome. -/
theorem bodypart_hash_recovery_witness :
    (some "insert violates bodyparts_hash_key" =
      some "insert violates bodyparts_hash_key") ∧
    bidFetchOne ⟨some "insert violates bodyparts_hash_key", none, some 5⟩ =
      Except.ok (5, true) :=
  ⟨rfl,
   (bodypart_hash_recovery
      ⟨some "insert violates bodyparts_hash_key", none, some 5⟩
      "insert violates bodyparts_hash_key" 5).1
     rfl (by decide) rfl rfl⟩

/-- Counterexample for C9: on a Unix-socket deployment whose address starts
with `File::root()`, removing the last handle fails the queued queries but
logs no disaster; and the error string carries a trailing period, so it is
not the string "No available database handles". -/
theorem remove_handle_unix_no_disaster :
    (removeHandle [7] 7 [⟨none, false⟩] true
      ['/', 'v', 'a', 'r', '/', 's'] ['/']).disaster = false ∧
    (removeHandle [7] 7 [⟨none, false⟩] true
      ['/', 'v', 'a', 'r', '/', 's'] ['/']).failedQueries =
      [⟨some "No available database handles.", true⟩] ∧
    ("No available database handles." : String) ≠
      "No available database handles" := by
  decide

/-- C9 (amended): when the last handle is removed, every query in the
submitted queue is failed with the error "No available database handles."
(note the trailing period) and notified, the queue is emptied, and a
disaster is logged exactly when the deployment is on a Unix socket whose
address does not start with `File::root()`. -/
theorem remove_handle_amended (handles : List Nat) (d : Nat)
    (queue : List PoolQuery) (isUnix : Bool) (addr root : List Char)
    (hlast : (handles.erase d).isEmpty = true) :
    (∀ q, q ∈ (removeHandle handles d queue isUnix addr root).failedQueries →
      q.err = some "No available database handles." ∧ q.notified = true) ∧
    (removeHandle handles d queue isUnix addr root).failedQueries.length =
      queue.length ∧
    (removeHandle handles d queue isUnix addr root).queue = [] ∧
    ((removeHandle handles d queue isUnix addr root).disaster = true ↔
      isUnix = true ∧ beginsWith root addr = false) := by
  have hre : removeHandle handles d queue isUnix addr root =
      { handles := handles.erase d,
        failedQueries := queue.map (fun q =>
          { q with err := some "No available database handles.",
                   notified := true }),
        queue := [],
        disaster := isUnix && !(beginsWith root addr) } := by
    simp [removeHandle, hlast]
  rw [hre]
  refine ⟨?_, by simp, rfl, ?_⟩
  · intro q hq
    simp only [List.mem_map] at hq
    obtain ⟨q0, _, rfl⟩ := hq
    exact ⟨rfl, rfl⟩
  · constructor
    · intro h
      have h1 : isUnix = true := by
        cases hxx : isUnix
        · rw [hxx] at h; simp at h
        · rfl
      have h2 : beginsWith root addr = false := by
        cases hxx : beginsWith root addr
        · rfl
        · rw [hxx, h1] at h; simp at h
      exact ⟨h1, h2⟩
    · intro ⟨h1, h2⟩
      simp [h1, h2]

/-- Witness for `remove_handle_amended`: removing the only handle with an
out-of-root Unix socket raises the disaster. -/
theorem remove_handle_amended_witness :
    (([3] : List Nat).erase 3).isEmpty = true ∧
    (removeHandle [3] 3 [⟨none, false⟩] true
      ['/', 'x'] ['/', 'r']).disaster = true :=
  ⟨by decide,
   (remove_handle_amended [3] 3 [⟨none, false⟩] true ['/', 'x'] ['/', 'r']
      (by decide)).2.2.2.mpr ⟨rfl, by decide⟩⟩

/-! ## Theorems for C5 -/

/-- A first-match lookup in a dict whose entries all satisfy the key
function returns a value with the looked-up key. -/
theorem alookup_key (store : Nat → Addr) (key : Addr → List Char) :
    ∀ (l : List (List Char × Nat)), (∀ p ∈ l, key (store p.2) = p.1) →
      ∀ (k : List Char) (i : Nat), alookup k l = some i →
        key (store i) = k := by
  intro l
  induction l with
  | nil => intro _ k i hki; cases hki
  | cons p ps ih =>
    intro hg k i hki
    unfold alookup at hki
    by_cases hp : p.1 = k
    · rw [if_pos hp] at hki
      cases hki
      rw [hg p (List.mem_cons_self p ps)]
      exact hp
    · rw [if_neg hp] at hki
      exact ih (fun q hq => hg q (List.mem_cons_of_mem p hq)) k i hki

/-- Consing an entry under a key that has no binding yet preserves every
existing lookup. -/
theorem alookup_cons_of_fresh (k k' : List Char) (j i : Nat)
    (l : List (List Char × Nat)) (hnone : alookup k' l = none)
    (hki : alookup k l = some i) :
    alookup k ((k', j) :: l) = some i := by
  show (if k' = k then some j else alookup k l) = some i
  by_cases hk : k' = k
  · subst hk
    rw [hnone] at hki
    cases hki
  · rw [if_neg hk]
    exact hki

/-- Invariants of the link-resolution loop: dict entries keep their keys,
existing lookups persist, and every emitted link address is exactly the
`unique` dict's binding for its own key. -/
theorem resolveLinks_spec (store : Nat → Addr) :
    ∀ (ls : List Nat) (u n : List (List Char × Nat)) (as : List Nat),
      (∀ p ∈ u, addressKey (store p.2) = p.1) →
      (∀ p ∈ n, nakedKey (store p.2) = p.1) →
      ((∀ p ∈ (resolveLinks store ls u n as).2.1,
          addressKey (store p.2) = p.1) ∧
       (∀ p ∈ (resolveLinks store ls u n as).2.2.1,
          nakedKey (store p.2) = p.1) ∧
       (∀ k i, alookup k u = some i →
          alookup k (resolveLinks store ls u n as).2.1 = some i) ∧
       (∀ x ∈ (resolveLinks store ls u n as).1,
          alookup (addressKey (store x))
            (resolveLinks store ls u n as).2.1 = some x)) := by
  intro ls
  induction ls with
  | nil =>
    intro u n as hu hn
    exact ⟨hu, hn, fun k i hki => hki,
           fun x hx => absurd hx (List.not_mem_nil x)⟩
  | cons l ls ih =>
    intro u n as hu hn
    cases halt : alookup (addressKey (store l)) u with
    | some i =>
      have hres : resolveLinks store (l :: ls) u n as =
          (i :: (resolveLinks store ls u n as).1,
           (resolveLinks store ls u n as).2) := by
        simp only [resolveLinks, halt]
      obtain ⟨g1, g2, g3, g4⟩ := ih u n as hu hn
      rw [hres]
      refine ⟨g1, g2, g3, ?_⟩
      intro x hx
      rcases List.mem_cons.mp hx with hx1 | hx2
      · subst hx1
        have hkey : addressKey (store x) = addressKey (store l) :=
          alookup_key store addressKey u hu _ x halt
        rw [hkey]
        exact g3 _ x halt
      · exact g4 x hx2
    | none =>
      have hres : resolveLinks store (l :: ls) u n as =
          (l :: (resolveLinks store ls ((addressKey (store l), l) :: u)
                  ((nakedKey (store l), l) :: n) (as ++ [l])).1,
           (resolveLinks store ls ((addressKey (store l), l) :: u)
                  ((nakedKey (store l), l) :: n) (as ++ [l])).2) := by
        simp only [resolveLinks, halt]
      have hu1 : ∀ p ∈ (addressKey (store l), l) :: u,
          addressKey (store p.2) = p.1 := by
        intro p hp
        rcases List.mem_cons.mp hp with hp1 | hp2
        · subst hp1; rfl
        · exact hu p hp2
      have hn1 : ∀ p ∈ (nakedKey (store l), l) :: n,
          nakedKey (store p.2) = p.1 := by
        intro p hp
        rcases List.mem_cons.mp hp with hp1 | hp2
        · subst hp1; rfl
        · exact hn p hp2
      obtain ⟨g1, g2, g3, g4⟩ := ih ((addressKey (store l), l) :: u)
        ((nakedKey (store l), l) :: n) (as ++ [l]) hu1 hn1
      rw [hres]
      refine ⟨g1, g2, ?_, ?_⟩
      · intro k i hki
        exact g3 k i
          (alookup_cons_of_fresh k (addressKey (store l)) l i u halt hki)
      · intro x hx
        rcases List.mem_cons.mp hx with hx1 | hx2
        · subst hx1
          refine g3 _ x ?_
          show (if addressKey (store x) = addressKey (store x) then some x
                else alookup (addressKey (store x)) u) = some x
          rw [if_pos rfl]
        · exact g4 x hx2

/-- Invariants of the remote-recipients loop with a pre-existing collision:
a recipient `a` whose naked key was bound (to the header instance `h ≠ a`)
before the loop started never survives in the list, and `h` is prepended
when `a` is visited. -/
theorem rcptLoop_spec (store : Nat → Addr) (a h : Nat) (hne : h ≠ a) :
    ∀ (rcpts : List Nat) (s : RcptState),
      (∀ p ∈ s.naked, nakedKey (store p.2) = p.1) →
      alookup (nakedKey (store a)) s.naked = some h →
      a ∉ s.front → a ∉ s.kept →
      ((∀ p ∈ (rcptLoop store rcpts s).naked, nakedKey (store p.2) = p.1) ∧
       alookup (nakedKey (store a)) (rcptLoop store rcpts s).naked = some h ∧
       a ∉ (rcptLoop store rcpts s).front ∧
       a ∉ (rcptLoop store rcpts s).kept ∧
       (∀ x ∈ s.front, x ∈ (rcptLoop store rcpts s).front) ∧
       (a ∈ rcpts → h ∈ (rcptLoop store rcpts s).front)) := by
  intro rcpts
  induction rcpts with
  | nil =>
    intro s hg hl hf hk
    exact ⟨hg, hl, hf, hk, fun x hx => hx,
           fun hmem => absurd hmem (List.not_mem_nil a)⟩
  | cons b bs ih =>
    intro s hg hl hf hk
    have hrl : rcptLoop store (b :: bs) s =
        rcptLoop store bs (rcptVisit store b s) := rfl
    have hnota : ∀ k, alookup k s.naked ≠ some a := by
      intro k hka
      have hkey : nakedKey (store a) = k :=
        alookup_key store nakedKey s.naked hg k a hka
      rw [← hkey, hl] at hka
      injection hka with hha
      exact hne hha
    rw [hrl]
    cases halt : alookup (nakedKey (store b)) s.naked with
    | some same =>
      have h0 : rcptVisit store b s =
          if b = same then { s with kept := s.kept ++ [b] }
          else { s with front := same :: s.front } := by
        unfold rcptVisit
        rw [halt]
      by_cases heq : b = same
      · -- a == same: the element stays in place
        have hstep : rcptVisit store b s = { s with kept := s.kept ++ [b] } := by
          rw [h0, if_pos heq]
        have hab : a ≠ b := by
          intro haa
          subst haa
          rw [hl] at halt
          injection halt with hh
          exact hne (hh.trans heq.symm)
        have hk1 : a ∉ s.kept ++ [b] := by
          intro hmem
          rcases List.mem_append.mp hmem with h1 | h1
          · exact hk h1
          · exact hab (List.mem_singleton.mp h1)
        obtain ⟨g1, g2, g3, g4, g5, g6⟩ := ih { s with kept := s.kept ++ [b] }
          hg hl hf hk1
        rw [hstep]
        refine ⟨g1, g2, g3, g4, g5, ?_⟩
        intro hmem
        rcases List.mem_cons.mp hmem with h1 | h1
        · exact absurd h1 hab
        · exact g6 h1
      · -- a != same: remove( a ); prepend( same )
        have hstep : rcptVisit store b s =
            { s with front := same :: s.front } := by
          rw [h0, if_neg heq]
        have hsa : same ≠ a := by
          intro hsa
          exact hnota (nakedKey (store b)) (hsa ▸ halt)
        have hf1 : a ∉ same :: s.front := by
          intro hmem
          rcases List.mem_cons.mp hmem with h1 | h1
          · exact hsa h1.symm
          · exact hf h1
        obtain ⟨g1, g2, g3, g4, g5, g6⟩ := ih { s with front := same :: s.front }
          hg hl hf1 hk
        rw [hstep]
        refine ⟨g1, g2, g3, g4, ?_, ?_⟩
        · intro x hx
          exact g5 x (List.mem_cons_of_mem same hx)
        · intro hmem
          rcases List.mem_cons.mp hmem with h1 | h1
          · -- a = b was visited: same is the header instance h
            subst h1
            rw [hl] at halt
            injection halt with hh
            rw [hh]
            exact g5 same (List.mem_cons_self same s.front)
          · exact g6 h1
    | none =>
      have hstep : rcptVisit store b s =
          { s with naked := (nakedKey (store b), b) :: s.naked,
                   kept := s.kept ++ [b], addrs := s.addrs ++ [b] } := by
        unfold rcptVisit
        rw [halt]
      have hab : a ≠ b := by
        intro haa
        rw [← haa, hl] at halt
        cases halt
      have hg1 : ∀ p ∈ (nakedKey (store b), b) :: s.naked,
          nakedKey (store p.2) = p.1 := by
        intro p hp
        rcases List.mem_cons.mp hp with hp1 | hp2
        · subst hp1; rfl
        · exact hg p hp2
      have hl1 : alookup (nakedKey (store a))
          ((nakedKey (store b), b) :: s.naked) = some h :=
        alookup_cons_of_fresh _ _ b h s.naked halt hl
      have hk1 : a ∉ s.kept ++ [b] := by
        intro hmem
        rcases List.mem_append.mp hmem with h1 | h1
        · exact hk h1
        · exact hab (List.mem_singleton.mp h1)
      obtain ⟨g1, g2, g3, g4, g5, g6⟩ := ih
        { s with naked := (nakedKey (store b), b) :: s.naked,
                 kept := s.kept ++ [b], addrs := s.addrs ++ [b] }
        hg1 hl1 hf hk1
      rw [hstep]
      refine ⟨g1, g2, g3, g4, g5, ?_⟩
      intro hmem
      rcases List.mem_cons.mp hmem with h1 | h1
      · exact absurd h1 hab
      · exact g6 h1

/-- Counterexample for C5: remote recipient 2 (a second `x@y` instance)
collides with header address 0; the code removes it from the list and
prepends the header instance, so the resulting remote-recipients list is
`[0, 1]` — not `[1, 0]`, which in-place replacement of the second element
would give. -/
theorem remote_recipient_not_replaced_in_place :
    (resolveAddressLinks cexStore [0] [1, 2]).2.1 = [0, 1] ∧
    (resolveAddressLinks cexStore [0] [1, 2]).2.1 ≠ [1, 0] := by
  decide

/-- C5 (amended): all address links whose addresses share a canonical key
end up sharing one Address instance (hence one id); and every remote
recipient whose `localpart@domain` collides with a header address is
removed from the remote-recipients list and the header Address instance is
prepended to it (so `id()` is shared), rather than being replaced at its
original position. -/
theorem resolve_address_links_amended (store : Nat → Addr)
    (links rcpts : List Nat) (a h : Nat)
    (ha : a ∈ rcpts)
    (hcol : alookup (nakedKey (store a)) (linksNaked store links) = some h)
    (hne : h ≠ a) :
    (∀ x y, x ∈ (resolveAddressLinks store links rcpts).1 →
      y ∈ (resolveAddressLinks store links rcpts).1 →
      addressKey (store x) = addressKey (store y) → x = y) ∧
    a ∉ (resolveAddressLinks store links rcpts).2.1 ∧
    h ∈ (resolveAddressLinks store links rcpts).2.1 := by
  obtain ⟨g1, g2, g3, g4⟩ := resolveLinks_spec store links [] [] []
    (fun p hp => absurd hp (List.not_mem_nil p))
    (fun p hp => absurd hp (List.not_mem_nil p))
  obtain ⟨r1, r2, r3, r4, r5, r6⟩ := rcptLoop_spec store a h hne rcpts
    ⟨(resolveLinks store links [] [] []).2.2.1, [], [],
     (resolveLinks store links [] [] []).2.2.2⟩
    g2 hcol (List.not_mem_nil a) (List.not_mem_nil a)
  refine ⟨?_, ?_, ?_⟩
  · intro x y hx hy hkey
    have hgx := g4 x hx
    have hgy := g4 y hy
    rw [hkey, hgy] at hgx
    injection hgx with hxy
    exact hxy.symm
  · show a ∉ finalRcpts (rcptLoop store rcpts
      ⟨(resolveLinks store links [] [] []).2.2.1, [], [],
       (resolveLinks store links [] [] []).2.2.2⟩)
    intro hmem
    rcases List.mem_append.mp hmem with h1 | h1
    · exact r3 h1
    · exact r4 h1
  · show h ∈ finalRcpts (rcptLoop store rcpts
      ⟨(resolveLinks store links [] [] []).2.2.1, [], [],
       (resolveLinks store links [] [] []).2.2.2⟩)
    exact List.mem_append_left _ (r6 ha)

/-- Witness for `resolve_address_links_amended` on the concrete store:
recipient 2 collides with header address 0 and is removed while 0 joins the
list. -/
theorem resolve_address_links_amended_witness :
    (2 ∈ [1, 2]) ∧
    2 ∉ (resolveAddressLinks cexStore [0] [1, 2]).2.1 ∧
    0 ∈ (resolveAddressLinks cexStore [0] [1, 2]).2.1 := by
  have hmain := resolve_address_links_amended cexStore [0] [1, 2] 2 0
    (by decide) (by decide) (by decide)
  exact ⟨by decide, hmain.2.1, hmain.2.2⟩

/-! ## Theorems for C3, C10 -/

/-- C3 (code bug, evaluated): deleting UIDs {3,7,9} of mailbox 1 and running
undelete on them, with pre-state `uidnext = 10`, `nextmodseq = 5`: because
the code binds the UID set at parameter index 5 while the DELETE references
`$2`, the DELETE fails, the transaction is rolled back, and the database is
left unchanged — the rows neither reappear in `mailbox_messages` nor leave
`deleted_messages`, against the claim (and the spec's §9 note calls this
bind a latent bug). -/
theorem undelete_bind_bug_eval :
    undeleteTxn ⟨10, 5, [⟨1, 3, 100⟩, ⟨1, 7, 101⟩, ⟨1, 9, 102⟩], []⟩
        1 [3, 7, 9] =
      Except.error "parameter $2 not bound" ∧
    undeleteRun ⟨10, 5, [⟨1, 3, 100⟩, ⟨1, 7, 101⟩, ⟨1, 9, 102⟩], []⟩
        1 [3, 7, 9] =
      (⟨10, 5, [⟨1, 3, 100⟩, ⟨1, 7, 101⟩, ⟨1, 9, 102⟩], []⟩, false) :=
  ⟨rfl, rfl⟩

/-- A valid date produced by the Received-field scan has the positivity the
date oracle guarantees. -/
theorem firstValidReceived_pos (parse : List Char → Option Nat)
    (hparse : ∀ v t, parse v = some t → 0 < t) :
    ∀ vs t, firstValidReceived parse vs = some t → 0 < t := by
  intro vs
  induction vs with
  | nil => intro t h; cases h
  | cons v vs ih =>
    intro t h
    unfold firstValidReceived at h
    cases hv : receivedAttempt parse v with
    | some t0 =>
      rw [hv] at h
      cases h
      exact hparse _ _ hv
    | none =>
      rw [hv] at h
      exact ih t h

/-- C10: `Injector::internalDate` is idempotent and caching: a message with
a nonzero stored internal date is returned unchanged; otherwise the first
call computes a nonzero time — the first valid Received `;`-date, else the
Date header's time, else the current time — stores it on the message, and
every subsequent call (at any later current time) returns that same value
without rewriting the message. The date oracle and current time are assumed
to produce nonzero Unix times. -/
theorem internal_date_caching (parse : List Char → Option Nat)
    (now now2 : Nat) (m : MsgDate)
    (hparse : ∀ v t, parse v = some t → 0 < t)
    (hdate : ∀ t, m.dateHdr = some t → 0 < t)
    (hnow : 0 < now) :
    (m.internal ≠ 0 → internalDate parse now (some m) = (m.internal, some m)) ∧
    (m.internal = 0 →
      0 < (internalDate parse now (some m)).1 ∧
      internalDate parse now (some m) =
        ((internalDate parse now (some m)).1,
         some { m with internal := (internalDate parse now (some m)).1 }) ∧
      internalDate parse now2
          (some { m with internal := (internalDate parse now (some m)).1 }) =
        ((internalDate parse now (some m)).1,
         some { m with internal := (internalDate parse now (some m)).1 }) ∧
      (internalDate parse now (some m)).1 =
        (match firstValidReceived parse m.receivedVals with
         | some t0 => t0
         | none => match m.dateHdr with | some t1 => t1 | none => now)) := by
  constructor
  · intro hm
    simp [internalDate, hm]
  · intro hm
    have hcompute : internalDate parse now (some m) =
        ((match firstValidReceived parse m.receivedVals with
          | some t0 => t0
          | none => match m.dateHdr with | some t1 => t1 | none => now),
         some { m with internal :=
          (match firstValidReceived parse m.receivedVals with
           | some t0 => t0
           | none => match m.dateHdr with | some t1 => t1 | none => now) }) := by
      simp [internalDate, hm]
    have hpos : 0 < (match firstValidReceived parse m.receivedVals with
        | some t0 => t0
        | none => match m.dateHdr with | some t1 => t1 | none => now) := by
      cases hf : firstValidReceived parse m.receivedVals with
      | some t0 => exact firstValidReceived_pos parse hparse _ t0 hf
      | none =>
        cases hd : m.dateHdr with
        | some t1 => exact hdate t1 hd
        | none => exact hnow
    refine ⟨?_, ?_, ?_, ?_⟩
    · rw [hcompute]
      exact hpos
    · rw [hcompute]
    · rw [hcompute]
      have hne : (match firstValidReceived parse m.receivedVals with
          | some t0 => t0
          | none => match m.dateHdr with | some t1 => t1 | none => now) ≠ 0 :=
        Nat.pos_iff_ne_zero.mp hpos
      simp [internalDate, hne]
    · rw [hcompute]

/-- Witness for `internal_date_caching`: a message with no usable header
dates takes the current time. -/
theorem internal_date_caching_witness :
    0 < 99 ∧
    internalDate (fun _ => none) 99 (some ⟨0, [], none⟩) =
      (99, some ⟨99, [], none⟩) := by
  have h := internal_date_caching (fun _ => none) 99 77 ⟨0, [], none⟩
    (fun v t hv => by cases hv) (fun t ht => by cases ht) (by decide)
  exact ⟨by decide, (h.2 rfl).2.1⟩

end Aox
